import Mathlib

/-!
Verification of the `zygote` library (a Rust crate that manages zygote
processes: pre-forked workers that run dispatched tasks and pass file
descriptors over an `AF_UNIX`/`SOCK_STREAM` socket pair).

The development is a shallow embedding of the crate's source:

* `src/fd.rs`     — the thread-local FD side-channel (`swap_fds`, `push_fd`,
                    `take_fd`) and `SendableFd`'s deserializer;
* `src/pipe/stream.rs` — the framed socket (`write_with_fd`, the read path
                    that collects `SCM_RIGHTS` descriptors into a queue,
                    `take_fds`, `SCM_MAX_FD`);
* `src/pipe.rs`   — the typed channel: `Pipe::send`, `Pipe::write_fds`,
                    `Pipe::read_fds`, `Pipe::recv_delayed`,
                    `DelayedRecv::deserialize`, `Pipe::recv`;
* `src/error.rs`  — the error taxonomy `Error` and `WireError`;
* `src/lib.rs`    — `Zygote::try_run`/`run`/`spawn`, the child main loop
                    (`zygote_start`, `zygote_main`, `runner`), panic capture
                    (`set_panic`/`take_panic`), and process creation topology.

Modelling conventions.  Machine bytes are `Nat`s below 256; `usize` values are
written in native (little-endian, x86-64) order with explicit `% 256`
truncation.  File descriptors are opaque `Nat` tokens; the kernel's
`SCM_RIGHTS` duplication preserves the token.  The socket is a FIFO of
chunks, each a run of data bytes together with the descriptors attached to
the `sendmsg` that wrote it; reading a chunk's bytes delivers its descriptors
into the receiving socket's descriptor queue, exactly as the crate's
`read_with_fd` appends every `ScmRights` control message to `self.fds`.
Rust panics are a distinct outcome (`panicked`) carrying the panic message
and, where it matters, the state at the point of unwinding.  The msgpack
serializer (`rmp_serde`, an external collaborator of the crate) is abstracted
as a `Codec`: an encode function that may push descriptors onto the
side-channel and a decode function that may take them back out or panic.
-/

/-- A file descriptor, an opaque token. -/
abbrev Fd := Nat

/-- The thread-local `FDS: RefCell<Vec<Option<RawFd>>>` of `src/fd.rs`. -/
abbrev FdBuf := List (Option Fd)

/-- One `sendmsg` on the socket: its data bytes and its ancillary descriptors. -/
abbrev Chunk := List Nat × List Fd

/-- The receiving half of the framed socket of `src/pipe/stream.rs`: the
chunks not yet consumed and the queue of descriptors already delivered by
`recvmsg` but not yet drained by `take_fds`. -/
structure PipeStream where
  chunks : List Chunk
  fdq : List Fd
deriving DecidableEq, Repr

/-- The `std::io::ErrorKind`s the crate's exit policy distinguishes. -/
inductive IoKind where
  | unexpectedEof
  | brokenPipe
  | other
deriving DecidableEq, Repr

/-- `WireError` of `src/error.rs`: `{ description, source: Option<Box<WireError>>,
backtrace }`.  The `source` option is flattened into two constructors (`leaf`
is `source: None`) so that equality is derivable. -/
inductive WireError where
  | leaf (description : String) (backtrace : Option String)
  | node (description : String) (source : WireError) (backtrace : Option String)
deriving DecidableEq, Repr

/-- The record constructor `WireErrorInner { description, source, backtrace }`. -/
def WireError.make (d : String) (s : Option WireError) (b : Option String) : WireError :=
  match s with
  | none => .leaf d b
  | some e => .node d e b

/-- `WireError::description()`. -/
def WireError.description : WireError → String
  | .leaf d _ => d
  | .node d _ _ => d

/-- `WireError::source()`. -/
def WireError.source : WireError → Option WireError
  | .leaf _ _ => none
  | .node _ s _ => some s

/-- `WireError::backtrace()`. -/
def WireError.backtrace : WireError → Option String
  | .leaf _ b => b
  | .node _ _ b => b

/-- `WireError::from_str`: a bare message, no source, no backtrace. -/
def WireError.fromStr (s : String) : WireError :=
  .leaf s none

/-- The top-level error taxonomy `Error` of `src/error.rs`:
`{ Io, Decode, Encode, Wire }`. -/
inductive Err where
  | io (k : IoKind)
  | decode (msg : String)
  | encode (msg : String)
  | wire (e : WireError)
deriving DecidableEq, Repr

/-- Outcome of a fallible operation that threads the thread-local FD buffer:
the Rust `Result` plus the possibility of a panic.  Every constructor carries
the `FDS` state left behind. -/
inductive StRes (α : Type) where
  | ok (a : α) (buf : FdBuf)
  | err (e : Err) (buf : FdBuf)
  | panicked (msg : String) (buf : FdBuf)
deriving DecidableEq, Repr

/-- The `FDS` state an operation left behind, whatever its outcome. -/
def StRes.buf : StRes α → FdBuf
  | .ok _ b => b
  | .err _ b => b
  | .panicked _ b => b

/-- Outcome of an operation that does not touch the FD side-channel. -/
inductive RRes (α : Type) where
  | ok (a : α)
  | err (e : Err)
  | panicked (msg : String)
deriving DecidableEq, Repr

/-- Outcome of a deserializer: a decode result (`none` is an `rmp_serde`
decode error) or a panic, threading the FD buffer. -/
inductive PRes (α : Type) where
  | ok (a : α)
  | panicked (msg : String) (buf : FdBuf)
deriving DecidableEq, Repr

/-- `swap_fds` of `src/fd.rs`: replace the thread-local buffer with the given
descriptors (each wrapped in `Some`) and return the previous contents with the
`None` holes flattened away. -/
def swap_fds (fds : List Fd) (buf : FdBuf) : List Fd × FdBuf :=
  (buf.filterMap id, fds.map some)

/-- `push_fd` of `src/fd.rs`: append a descriptor, returning its index. -/
def push_fd (fd : Fd) (buf : FdBuf) : Nat × FdBuf :=
  (buf.length, buf ++ [some fd])

/-- `take_fd` of `src/fd.rs`: `fds.get_mut(n).map(Option::take).flatten()` —
remove and return the descriptor at index `n`, leaving a `None` hole; `none`
when the index is out of range or the slot was already taken. -/
def take_fd (n : Nat) (buf : FdBuf) : Option Fd × FdBuf :=
  match buf.get? n with
  | some (some fd) => (some fd, buf.set n none)
  | some none => (none, buf.set n none)
  | none => (none, buf)

/-- The index-decoding half of `SendableFd::deserialize` (`src/fd.rs`): after
the wire index `n` has been decoded, `take_fd(n).expect("expected an FD")`.
A missing descriptor is a panic, not a decode error. -/
def SendableFd.deserializeIdx (n : Nat) (buf : FdBuf) : PRes (Fd × FdBuf) :=
  match take_fd n buf with
  | (some fd, buf1) => .ok (fd, buf1)
  | (none, buf1) => .panicked "expected an FD" buf1

/-- `usize::to_ne_bytes` on x86-64: `k` little-endian base-256 digits. -/
def natToLeBytes : Nat → Nat → List Nat
  | 0, _ => []
  | k + 1, n => n % 256 :: natToLeBytes k (n / 256)

/-- `usize::from_ne_bytes` on x86-64. -/
def leBytesToNat : List Nat → Nat
  | [] => 0
  | b :: bs => b + 256 * leBytesToNat bs

/-- `SCM_MAX_FD = 253` of `src/pipe/stream.rs`. -/
def SCM_MAX_FD : Nat := 253

/-- `write_all` on the socket: a no-op for an empty buffer (Rust's
`Write::write_all` issues no call then), otherwise one data chunk with no
ancillary descriptors. -/
def write_all (b : List Nat) : List Chunk :=
  if b.isEmpty then [] else [(b, [])]

/-- One byte off the socket, as the crate's `read_with_fd` sees it: the next
data byte of the stream, delivering the ancillary descriptors of the chunk it
came from into the descriptor queue.  `none` is end-of-file. -/
def readByteAux : List Chunk → List Fd → Option (Nat × List Chunk × List Fd)
  | [], _ => none
  | ([], f) :: rest, q => readByteAux rest (q ++ f)
  | ([b], f) :: rest, q => some (b, rest, q ++ f)
  | (b :: c :: ds, f) :: rest, q => some (b, (c :: ds, []) :: rest, q ++ f)

/-- `readByteAux` lifted to the stream structure. -/
def readByte (s : PipeStream) : Option (Nat × PipeStream) :=
  match readByteAux s.chunks s.fdq with
  | none => none
  | some (b, cs, q) => some (b, ⟨cs, q⟩)

/-- `read_exact` of `n` bytes: `none` is `UnexpectedEof`. -/
def readBytesN : Nat → PipeStream → Option (List Nat × PipeStream)
  | 0, s => some ([], s)
  | n + 1, s =>
    match readByte s with
    | none => none
    | some (b, s1) =>
      match readBytesN n s1 with
      | none => none
      | some (bs, s2) => some (b :: bs, s2)

/-- `Pipe::write_fds` (`src/pipe.rs`): while more than `SCM_MAX_FD`
descriptors remain, send a chunk with count byte `255` carrying
`SCM_MAX_FD` of them; finish with one chunk whose count byte is the
remaining length (cast to `u8`) carrying the rest.  Structured with explicit
fuel so that the kernel can evaluate it; `write_fds_eq` below is the
recurrence the source loop satisfies. -/
def write_fds_fuel : Nat → List Fd → List Chunk
  | 0, fds => [([fds.length % 256], fds)]
  | fuel + 1, fds =>
    if SCM_MAX_FD < fds.length then
      ([255], fds.take SCM_MAX_FD) :: write_fds_fuel fuel (fds.drop SCM_MAX_FD)
    else
      [([fds.length % 256], fds)]

/-- `Pipe::write_fds`, with fuel adequate for its argument. -/
def write_fds (fds : List Fd) : List Chunk :=
  write_fds_fuel fds.length fds

/-- Total data bytes plus chunk count: the measure `readByte` consumes. -/
def streamMeasure (cs : List Chunk) : Nat :=
  cs.length + (cs.map (fun c => c.1.length)).sum

/-- The count-byte loop of `Pipe::read_fds`: read a count byte, add
`min(byte, SCM_MAX_FD)` to the running total, and continue while the byte is
the continuation sentinel `255`.  Fuel-structured; `read_fds_loop_eq` below
is the recurrence. -/
def read_fds_loop_fuel : Nat → PipeStream → RRes (Nat × PipeStream)
  | 0, _ => .err (.io .other)
  | fuel + 1, s =>
    match readByte s with
    | none => .err (.io .unexpectedEof)
    | some (b, s1) =>
      if b = 255 then
        match read_fds_loop_fuel fuel s1 with
        | .ok (len, s2) => .ok (min b SCM_MAX_FD + len, s2)
        | .err e => .err e
        | .panicked m => .panicked m
      else
        .ok (min b SCM_MAX_FD, s1)

/-- The count-byte loop of `Pipe::read_fds`, with fuel adequate for any
finite stream. -/
def read_fds_loop (s : PipeStream) : RRes (Nat × PipeStream) :=
  read_fds_loop_fuel (streamMeasure s.chunks + 1) s

/-- `Pipe::read_fds` (`src/pipe.rs`): run the count-byte loop, then drain the
socket's descriptor queue (`take_fds`) and `assert_eq!` its length against
the announced total. -/
def Pipe.read_fds (s : PipeStream) : RRes (List Fd × PipeStream) :=
  match read_fds_loop s with
  | .ok (len, s1) =>
    if s1.fdq.length ≠ len then .panicked "assertion failed: fds.len() == len"
    else .ok (s1.fdq, ⟨s1.chunks, []⟩)
  | .err e => .err e
  | .panicked m => .panicked m

/-- The serializer abstraction for a wire-capable Rust type `T`: its runtime
`TypeId` (16 bytes, `size_of::<TypeId>()`), its `type_name`, and the
`rmp_serde`-backed `Wire` encode/decode, which thread the thread-local FD
side-channel (`SendableFd` serializers push descriptors, deserializers take
them).  `enc` returns `none` on an encode error; `dec` returns `none` on a
decode error and may panic. -/
structure Codec (α : Type) where
  name : String
  tid : List Nat
  tid_len : tid.length = 16
  enc : α → FdBuf → Option (List Nat) × FdBuf
  dec : List Nat → FdBuf → PRes (Option α × FdBuf)

/-- `Pipe::send` (`src/pipe.rs`): assert the side-channel empty (via
`swap_fds(vec![])`), serialize, harvest the pushed descriptors with a second
`swap_fds(vec![])`, then write the 16-byte type id, the length-prefixed
payload, and the descriptor chunks. -/
def Pipe.send (c : Codec α) (v : α) (buf : FdBuf) : StRes (List Chunk) :=
  if (swap_fds [] buf).1.length ≠ 0 then
    .panicked "orphaned file descriptors in channel" (swap_fds [] buf).2
  else
    match c.enc v (swap_fds [] buf).2 with
    | (none, buf2) => .err (.encode "serialize error") buf2
    | (some bytes, buf2) =>
      .ok (write_all c.tid ++ write_all (natToLeBytes 8 bytes.length)
           ++ write_all bytes ++ write_fds (swap_fds [] buf2).1) (swap_fds [] buf2).2

/-- `DelayedRecv` (`src/pipe.rs`): a received frame whose deserialization is
deferred. -/
structure DelayedRecv where
  type_id : List Nat
  buffer : List Nat
  fds : List Fd
deriving DecidableEq, Repr

/-- `Pipe::recv_delayed` via `recv_parts_into` (`src/pipe.rs`): read the
16-byte type id, the 8-byte length and that many payload bytes, then the
descriptor chunks. -/
def Pipe.recv_delayed (s : PipeStream) : RRes (DelayedRecv × PipeStream) :=
  match readBytesN 16 s with
  | none => .err (.io .unexpectedEof)
  | some (tid, s1) =>
    match readBytesN 8 s1 with
    | none => .err (.io .unexpectedEof)
    | some (lenB, s2) =>
      match readBytesN (leBytesToNat lenB) s2 with
      | none => .err (.io .unexpectedEof)
      | some (buffer, s3) =>
        match Pipe.read_fds s3 with
        | .ok (fds, s4) => .ok (⟨tid, buffer, fds⟩, s4)
        | .err e => .err e
        | .panicked m => .panicked m

/-- `DelayedRecv::deserialize` (`src/pipe.rs`): reject a mismatched type id
with a decode error; stage the received descriptors into the side-channel
(asserting it was empty); deserialize; assert every staged descriptor was
claimed. -/
def DelayedRecv.deserialize (c : Codec α) (d : DelayedRecv) (buf : FdBuf) : StRes α :=
  if d.type_id ≠ c.tid then
    .err (.decode ("Invalid type id for " ++ c.name)) buf
  else if (swap_fds d.fds buf).1.length ≠ 0 then
    .panicked "orphaned file descriptors in channel" (swap_fds d.fds buf).2
  else
    match c.dec d.buffer (swap_fds d.fds buf).2 with
    | .panicked m buf2 => .panicked m buf2
    | .ok (none, buf2) => .err (.decode "deserialize error") buf2
    | .ok (some v, buf2) =>
      if (swap_fds [] buf2).1.length ≠ 0 then
        .panicked "orphaned file descriptors in channel" (swap_fds [] buf2).2
      else .ok v (swap_fds [] buf2).2

/-- `Pipe::recv` (`src/pipe.rs`): `recv_delayed` then `deserialize`. -/
def Pipe.recv (c : Codec α) (s : PipeStream) (buf : FdBuf) : StRes (α × PipeStream) :=
  match Pipe.recv_delayed s with
  | .err e => .err e buf
  | .panicked m => .panicked m buf
  | .ok (d, s1) =>
    match DelayedRecv.deserialize c d buf with
    | .ok v buf1 => .ok (v, s1) buf1
    | .err e buf1 => .err e buf1
    | .panicked m buf1 => .panicked m buf1

/-- Display of the `Error` taxonomy (`thiserror` format strings in
`src/error.rs`). -/
def Err.display : Err → String
  | .io .unexpectedEof => "io error: unexpected end of file"
  | .io .brokenPipe => "io error: broken pipe"
  | .io .other => "io error"
  | .decode m => "decode error: " ++ m
  | .encode m => "encode error: " ++ m
  | .wire e => "wire error: " ++ e.description

/-- The `source()` of an `Error`, as the `#[from]` fields give it. -/
def Err.sourceWire : Err → Option WireError
  | .io _ => none
  | .decode m => some (.leaf m none)
  | .encode m => some (.leaf m none)
  | .wire e => some e

/-- `WireError::from_err` applied to an `Error` (`src/error.rs`): the display
string as description, the error-chain walk as source, no backtrace. -/
def wireErrorOfErr (e : Err) : WireError :=
  WireError.make e.display e.sourceWire none

/-- `PanicHookInfo::to_string()`: the location header followed by the panic
payload, so the result contains the panic message. -/
def panicInfoString (msg : String) : String :=
  "panicked at: " ++ msg

/-- The error the panic hook installed by `zygote_main` stores: description
from `info.to_string()`, no source, the captured backtrace when there is
one. -/
def panicWireError (msg : String) (bt : Option String) : WireError :=
  WireError.make (panicInfoString msg) none bt

/-- The panic hook of `zygote_main` as a state transformer of the
`PANIC_ERROR` cell: for a panic with payload `msg` it stores
`WireError::from_panic(info, backtrace)`. -/
def realHook (bt : Option String) : String → Option WireError :=
  fun msg => some (panicWireError msg bt)

/-- `take_panic` (`src/lib.rs`): `PANIC_ERROR.take()` — empty the cell — and
fall back to `"panic information not found"` when nothing was stored. -/
def take_panic (cell : Option WireError) : WireError × Option WireError :=
  match cell with
  | some e => (e, none)
  | none => (WireError.fromStr "panic information not found", none)

/-- What a dispatched task does: return a value or panic with a message. -/
inductive TaskOut (R : Type) where
  | ok (r : R)
  | panics (msg : String)
deriving DecidableEq, Repr

/-- `Result<Ret, WireError>`, the reply type of `runner`. -/
inductive WResult (R : Type) where
  | ok (r : R)
  | err (e : WireError)
deriving DecidableEq, Repr

/-- The child-side per-thread state: the `PANIC_ERROR` cell and the
thread-local FD buffer. -/
structure ChildState where
  cell : Option WireError
  fds : FdBuf
deriving DecidableEq, Repr

/-- Outcome of one request served by the child: a reply frame (the loop
continues), a returned `Err` (the loop aborts into `zygote_start`'s exit
policy), or a panic escaping the child (the process dies unwinding). -/
inductive RunnerOut where
  | reply (resp : List Chunk) (rest : PipeStream) (st : ChildState)
  | fail (e : Err) (st : ChildState)
  | died (msg : String) (st : ChildState)
deriving DecidableEq, Repr

/-- `runner::<Args, Ret>` (`src/lib.rs`): receive the argument frame delayed;
under `catch_unwind`, deserialize the arguments and run the task — a panic in
either step runs the panic hook (`hook`) and is converted via `take_panic` —
then send the `Result<Ret, WireError>` back.  The `f_addr`-to-`task`
resolution (a `transmute` sound because the child is a clone of the parent's
image) is modelled by taking the task function itself. -/
def runner (cA : Codec A) (cRes : Codec (WResult R)) (hook : String → Option WireError)
    (task : A → TaskOut R) (s : PipeStream) (st : ChildState) : RunnerOut :=
  match Pipe.recv_delayed s with
  | .err e => .fail e st
  | .panicked m => .died m st
  | .ok (d, s1) =>
    match
      (match DelayedRecv.deserialize cA d st.fds with
       | .ok a buf1 =>
         (match task a with
          | .ok r => (WResult.ok r, st.cell, buf1)
          | .panics m =>
            match take_panic ((hook m).orElse (fun _ => st.cell)) with
            | (we, cell1) => (WResult.err we, cell1, buf1))
       | .err e buf1 => (WResult.err (wireErrorOfErr e), st.cell, buf1)
       | .panicked m buf1 =>
         match take_panic ((hook m).orElse (fun _ => st.cell)) with
         | (we, cell1) => (WResult.err we, cell1, buf1))
    with
    | (res, cell1, buf1) =>
      match Pipe.send cRes res buf1 with
      | .ok chunks buf2 => .reply chunks s1 ⟨cell1, buf2⟩
      | .err e buf2 => .fail e ⟨cell1, buf2⟩
      | .panicked m buf2 => .died m ⟨cell1, buf2⟩

/-- One iteration of the `zygote_main` loop (`src/lib.rs`): receive the
`[usize; 2]` of `(f_addr, runner_addr)` and invoke the runner they name.
The `transmute` of `runner_addr` back to `fn(&mut Pipe, usize)` resolves to
`runner::<Args, Ret>` in the cloned image; the model invokes `runner`
directly with the task the addresses name. -/
def childServe (cAddr : Codec (Nat × Nat)) (cA : Codec A) (cRes : Codec (WResult R))
    (hook : String → Option WireError) (task : A → TaskOut R)
    (s : PipeStream) (st : ChildState) : RunnerOut :=
  match Pipe.recv cAddr s st.fds with
  | .ok (_, s1) buf1 => runner cA cRes hook task s1 ⟨st.cell, buf1⟩
  | .err e buf1 => .fail e ⟨st.cell, buf1⟩
  | .panicked m buf1 => .died m ⟨st.cell, buf1⟩

/-- The sending half of `Zygote::try_run` (`src/lib.rs`): under the pipe
mutex, `pipe.send([f, runner])` then `pipe.send(args)`; both frames go out
back-to-back on the stream. -/
def tryRunRequest (cAddr : Codec (Nat × Nat)) (cA : Codec A)
    (fAddr raddr : Nat) (args : A) (buf : FdBuf) : StRes (List Chunk) :=
  match Pipe.send cAddr (fAddr, raddr) buf with
  | .ok f1 buf1 =>
    (match Pipe.send cA args buf1 with
     | .ok f2 buf2 => .ok (f1 ++ f2) buf2
     | .err e buf2 => .err e buf2
     | .panicked m buf2 => .panicked m buf2)
  | .err e buf1 => .err e buf1
  | .panicked m buf1 => .panicked m buf1

/-- The receiving half of `Zygote::try_run`:
`Ok(pipe.recv::<Result<_, WireError>>()??)` — a transport error propagates,
a child-side `Err(e)` becomes `Error::Wire(e)`. -/
def tryRunResponse (cRes : Codec (WResult R)) (s : PipeStream) (buf : FdBuf) :
    StRes (R × PipeStream) :=
  match Pipe.recv cRes s buf with
  | .ok (.ok r, s1) buf1 => .ok (r, s1) buf1
  | .ok (.err we, _) buf1 => .err (.wire we) buf1
  | .err e buf1 => .err e buf1
  | .panicked m buf1 => .panicked m buf1

/-- `Zygote::run` given the result of `try_run`: `.unwrap()` — the value on
`Ok`, a panic on `Err`. -/
def runWrap : StRes R → StRes R
  | .ok r b => .ok r b
  | .err e b => .panicked ("called Result::unwrap on an Err value: " ++ e.display) b
  | .panicked m b => .panicked m b

/-- One complete `try_run` round trip between the parent and its zygote:
the parent's two sends, the child's serve, the parent's receive.  When the
child's loop aborts or the child dies, the parent's receive sees end-of-file
on the socket.  Returns the parent-side result (carrying the parent thread's
FD buffer) and the child state left behind. -/
def callRound (cAddr : Codec (Nat × Nat)) (cA : Codec A) (cRes : Codec (WResult R))
    (hook : String → Option WireError) (task : A → TaskOut R) (args : A)
    (fAddr raddr : Nat) (pbuf : FdBuf) (st : ChildState) : StRes R × ChildState :=
  match tryRunRequest cAddr cA fAddr raddr args pbuf with
  | .ok frames pbuf1 =>
    (match childServe cAddr cA cRes hook task ⟨frames, []⟩ st with
     | .reply resp _ st1 =>
       (match tryRunResponse cRes ⟨resp, []⟩ pbuf1 with
        | .ok (r, _) pbuf2 => (.ok r pbuf2, st1)
        | .err e pbuf2 => (.err e pbuf2, st1)
        | .panicked m pbuf2 => (.panicked m pbuf2, st1))
     | .fail _ st1 => (.err (.io .unexpectedEof) pbuf1, st1)
     | .died _ st1 => (.err (.io .unexpectedEof) pbuf1, st1))
  | .err e pbuf1 => (.err e pbuf1, st)
  | .panicked m pbuf1 => (.panicked m pbuf1, st)

/-- A sequence of calls on one handle, each a task and its argument, threading
the parent FD buffer and the child state. -/
def runSeq (cAddr : Codec (Nat × Nat)) (cA : Codec A) (cRes : Codec (WResult R))
    (hook : String → Option WireError) (fAddr raddr : Nat) :
    List ((A → TaskOut R) × A) → FdBuf → ChildState →
    List (StRes R) × FdBuf × ChildState
  | [], pbuf, st => ([], pbuf, st)
  | (task, args) :: rest, pbuf, st =>
    match callRound cAddr cA cRes hook task args fAddr raddr pbuf st with
    | (r, st1) =>
      match runSeq cAddr cA cRes hook fAddr raddr rest r.buf st1 with
      | (rs, pbufF, stF) => (r :: rs, pbufF, stF)

/-- The exit policy of `zygote_start` (`src/lib.rs`) applied to the result of
`zygote_main`: exit 0 on clean return and on `UnexpectedEof`/`BrokenPipe` IO
errors, exit 1 on every other error. -/
def zygote_start_code : Except Err Unit → Nat
  | .ok _ => 0
  | .error (.io .unexpectedEof) => 0
  | .error (.io .brokenPipe) => 0
  | .error _ => 1

/-- A process: its pid and its parent's pid. -/
structure Proc where
  pid : Nat
  ppid : Nat
deriving DecidableEq, Repr

/-- The kernel pid allocator: the next unused pid. -/
structure World where
  next : Nat
deriving DecidableEq, Repr

/-- `clone3_or_clone` topology (`src/lib.rs`): with `CLONE_PARENT`
(`sibling = true`) the new process shares the caller's parent; otherwise the
caller becomes the parent. -/
def clone_proc (caller : Proc) (sibling : Bool) (w : World) : Proc × World :=
  (⟨w.next, if sibling then caller.ppid else caller.pid⟩, ⟨w.next + 1⟩)

/-- `Zygote::new` / `new_impl(false)` run in process `p`: a child of `p`. -/
def Zygote.new_proc (p : Proc) (w : World) : Proc × World :=
  clone_proc p false w

/-- `Zygote::spawn` on a handle whose zygote process is `z`: `try_run`
executes `spawner` inside `z`, and `spawner` calls `Zygote::new_impl(true)`,
i.e. a `CLONE_PARENT` clone of `z`. -/
def Zygote.spawn_proc (z : Proc) (w : World) : Proc × World :=
  clone_proc z true w

/-- The nested-zygote scenario: from process `p`, create `p.zyg` with
`Zygote::new`, then `p.zyg.zyg` with `p.zyg.spawn()`.  Returns
`(p.zyg, p.zyg.zyg)`. -/
def nestedScenario (p : Proc) (w : World) : Proc × Proc :=
  match Zygote.new_proc p w with
  | (zyg, w1) =>
    match Zygote.spawn_proc zyg w1 with
    | (zygzyg, _) => (zyg, zygzyg)

/-- A codec is lawful at a value when encoding from an empty side-channel
succeeds, the payload fits a `usize`, and decoding the payload with exactly
the pushed descriptors staged recovers the value and claims every
descriptor.  This is the round-trip contract of `rmp_serde` plus the
`Serialize`/`Deserialize` implementations of the value's type. -/
def Codec.GoodAt (c : Codec α) (v : α) : Prop :=
  ∃ bytes pushed final,
    c.enc v [] = (some bytes, pushed) ∧
    bytes.length < 256 ^ 8 ∧
    c.dec bytes ((pushed.filterMap id).map some) = .ok (some v, final) ∧
    final.filterMap id = []

theorem natToLeBytes_length (k n : Nat) : (natToLeBytes k n).length = k := by
  induction k generalizing n with
  | zero => rfl
  | succ k ih => simp [natToLeBytes, ih]

theorem leBytesToNat_natToLeBytes (k n : Nat) :
    leBytesToNat (natToLeBytes k n) = n % 256 ^ k := by
  induction k generalizing n with
  | zero => simp [natToLeBytes, leBytesToNat, Nat.mod_one]
  | succ k ih =>
    simp only [natToLeBytes, leBytesToNat, ih]
    rw [pow_succ', Nat.mod_mul]

theorem leBytesToNat_natToLeBytes_small (k n : Nat) (h : n < 256 ^ k) :
    leBytesToNat (natToLeBytes k n) = n := by
  rw [leBytesToNat_natToLeBytes, Nat.mod_eq_of_lt h]

theorem readBytesN_chunk : ∀ (d : List Nat) (rest : List Chunk) (q : List Fd),
    d ≠ [] → readBytesN d.length ⟨(d, []) :: rest, q⟩ = some (d, ⟨rest, q⟩) := by
  intro d
  induction d with
  | nil => intro rest q h; exact absurd rfl h
  | cons b tail ih =>
    intro rest q _
    cases tail with
    | nil => simp [readBytesN, readByte, readByteAux]
    | cons c ds =>
      have hne : c :: ds ≠ ([] : List Nat) := by simp
      have ihx := ih rest q hne
      show readBytesN ((c :: ds).length + 1) ⟨(b :: c :: ds, []) :: rest, q⟩ = _
      rw [readBytesN]
      simp only [readByte, readByteAux, List.append_nil]
      rw [ihx]

theorem write_fds_fuel_irrel : ∀ (f1 f2 : Nat) (fds : List Fd),
    fds.length ≤ f1 → fds.length ≤ f2 →
    write_fds_fuel f1 fds = write_fds_fuel f2 fds := by
  intro f1
  induction f1 with
  | zero =>
    intro f2 fds h1 _
    have hz : fds.length = 0 := Nat.le_zero.mp h1
    cases f2 with
    | zero => rfl
    | succ g =>
      simp [write_fds_fuel, hz, SCM_MAX_FD]
  | succ f ih =>
    intro f2 fds h1 h2
    cases f2 with
    | zero =>
      have hz : fds.length = 0 := Nat.le_zero.mp h2
      simp [write_fds_fuel, hz, SCM_MAX_FD]
    | succ g =>
      simp only [write_fds_fuel]
      by_cases hlen : SCM_MAX_FD < fds.length
      · simp only [hlen, if_true]
        have hd : (fds.drop SCM_MAX_FD).length ≤ f := by
          simp only [List.length_drop]
          simp only [SCM_MAX_FD] at hlen ⊢
          omega
        have hd2 : (fds.drop SCM_MAX_FD).length ≤ g := by
          simp only [List.length_drop]
          simp only [SCM_MAX_FD] at hlen h2 ⊢
          omega
        rw [ih g _ hd hd2]
      · simp [hlen]

/-- The recurrence `Pipe::write_fds`'s loop satisfies. -/
theorem write_fds_eq (fds : List Fd) :
    write_fds fds =
      if SCM_MAX_FD < fds.length then
        ([255], fds.take SCM_MAX_FD) :: write_fds (fds.drop SCM_MAX_FD)
      else
        [([fds.length % 256], fds)] := by
  by_cases hlen : SCM_MAX_FD < fds.length
  · simp only [hlen, if_true]
    have h1 : fds.length = (fds.length - 1) + 1 := by
      simp only [SCM_MAX_FD] at hlen; omega
    unfold write_fds
    rw [h1, write_fds_fuel]
    simp only [hlen, if_true]
    have hd : (fds.drop SCM_MAX_FD).length ≤ fds.length - 1 := by
      simp only [List.length_drop]
      simp only [SCM_MAX_FD] at hlen ⊢
      omega
    rw [write_fds_fuel_irrel (fds.length - 1) (fds.drop SCM_MAX_FD).length _ hd le_rfl]
  · simp only [hlen, if_false]
    unfold write_fds
    rw [write_fds_fuel_irrel fds.length (fds.length + 1) fds le_rfl (by omega)]
    rw [write_fds_fuel]
    simp [hlen]

theorem readByteAux_measure : ∀ (cs : List Chunk) (q : List Fd) (b : Nat)
    (cs1 : List Chunk) (q1 : List Fd),
    readByteAux cs q = some (b, cs1, q1) → streamMeasure cs1 < streamMeasure cs := by
  intro cs
  induction cs with
  | nil => intro q b cs1 q1 h; exact absurd h (by simp [readByteAux])
  | cons hd rest ih =>
    intro q b cs1 q1 h
    match hd with
    | ([], f) =>
      rw [readByteAux] at h
      have := ih (q ++ f) b cs1 q1 h
      simp only [streamMeasure, List.map_cons, List.sum_cons, List.length_cons] at this ⊢
      omega
    | ([x], f) =>
      rw [readByteAux] at h
      simp only [Option.some.injEq, Prod.mk.injEq] at h
      obtain ⟨_, h2, _⟩ := h
      subst h2
      simp only [streamMeasure, List.map_cons, List.sum_cons, List.length_cons]
      omega
    | (x :: y :: ds, f) =>
      rw [readByteAux] at h
      simp only [Option.some.injEq, Prod.mk.injEq] at h
      obtain ⟨_, h2, _⟩ := h
      subst h2
      simp only [streamMeasure, List.map_cons, List.sum_cons, List.length_cons]
      omega

theorem readByte_measure (s : PipeStream) (b : Nat) (s1 : PipeStream)
    (h : readByte s = some (b, s1)) : streamMeasure s1.chunks < streamMeasure s.chunks := by
  unfold readByte at h
  cases hx : readByteAux s.chunks s.fdq with
  | none => rw [hx] at h; exact absurd h (by simp)
  | some v =>
    match v with
    | (b0, cs, q) =>
      rw [hx] at h
      simp only [Option.some.injEq, Prod.mk.injEq] at h
      obtain ⟨_, h2⟩ := h
      subst h2
      simpa using readByteAux_measure s.chunks s.fdq b0 cs q hx

theorem read_fds_loop_fuel_irrel : ∀ (f1 f2 : Nat) (s : PipeStream),
    streamMeasure s.chunks < f1 → streamMeasure s.chunks < f2 →
    read_fds_loop_fuel f1 s = read_fds_loop_fuel f2 s := by
  intro f1
  induction f1 with
  | zero => intro f2 s h1 _; exact absurd h1 (by omega)
  | succ f ih =>
    intro f2 s h1 h2
    cases f2 with
    | zero => exact absurd h2 (by omega)
    | succ g =>
      simp only [read_fds_loop_fuel]
      cases hb : readByte s with
      | none => rfl
      | some v =>
        match v with
        | (b, s1) =>
          have hm := readByte_measure s b s1 hb
          by_cases h255 : b = 255
          · simp only [h255, if_true]
            rw [ih g s1 (by omega) (by omega)]
          · simp only [h255, if_false]

/-- The recurrence the count-byte loop of `Pipe::read_fds` satisfies. -/
theorem read_fds_loop_eq (s : PipeStream) :
    read_fds_loop s =
      match readByte s with
      | none => .err (.io .unexpectedEof)
      | some (b, s1) =>
        if b = 255 then
          match read_fds_loop s1 with
          | .ok (len, s2) => .ok (min b SCM_MAX_FD + len, s2)
          | .err e => .err e
          | .panicked m => .panicked m
        else
          .ok (min b SCM_MAX_FD, s1) := by
  unfold read_fds_loop
  rw [read_fds_loop_fuel]
  cases hb : readByte s with
  | none => rfl
  | some v =>
    match v with
    | (b, s1) =>
      have hm := readByte_measure s b s1 hb
      by_cases h255 : b = 255
      · simp only [h255, if_true]
        rw [read_fds_loop_fuel_irrel (streamMeasure s.chunks)
          (streamMeasure s1.chunks + 1) s1 (by omega) (by omega)]
      · simp only [h255, if_false]

theorem read_fds_loop_write : ∀ (n : Nat) (fds : List Fd), fds.length ≤ n →
    ∀ (rest : List Chunk) (q : List Fd),
    read_fds_loop ⟨write_fds fds ++ rest, q⟩ = .ok (fds.length, ⟨rest, q ++ fds⟩) := by
  intro n
  induction n with
  | zero =>
    intro fds hn rest q
    have hz : fds.length = 0 := Nat.le_zero.mp hn
    have hfds : fds = [] := List.length_eq_zero.mp hz
    subst hfds
    rw [read_fds_loop_eq]
    simp [write_fds_eq, SCM_MAX_FD, readByte, readByteAux]
  | succ m ih =>
    intro fds hn rest q
    rw [read_fds_loop_eq, write_fds_eq]
    by_cases hlen : SCM_MAX_FD < fds.length
    · simp only [hlen, if_true, List.cons_append]
      rw [show readByte ⟨([255], fds.take SCM_MAX_FD) :: (write_fds (fds.drop SCM_MAX_FD) ++ rest), q⟩
            = some (255, ⟨write_fds (fds.drop SCM_MAX_FD) ++ rest, q ++ fds.take SCM_MAX_FD⟩)
          from rfl]
      simp only [if_true, reduceIte]
      have hd : (fds.drop SCM_MAX_FD).length ≤ m := by
        simp only [List.length_drop]
        simp only [SCM_MAX_FD] at hlen hn ⊢
        omega
      rw [ih (fds.drop SCM_MAX_FD) hd rest (q ++ fds.take SCM_MAX_FD)]
      have hmin : min 255 SCM_MAX_FD = SCM_MAX_FD := by simp [SCM_MAX_FD]
      rw [hmin]
      have hlen2 : SCM_MAX_FD + (fds.drop SCM_MAX_FD).length = fds.length := by
        simp only [List.length_drop]
        simp only [SCM_MAX_FD] at hlen ⊢
        omega
      show RRes.ok (SCM_MAX_FD + (fds.drop SCM_MAX_FD).length,
        PipeStream.mk rest (q ++ fds.take SCM_MAX_FD ++ fds.drop SCM_MAX_FD)) = _
      rw [hlen2, List.append_assoc, List.take_append_drop]
    · simp only [hlen, if_false, List.cons_append, List.nil_append]
      have hsmall : fds.length % 256 = fds.length := by
        apply Nat.mod_eq_of_lt
        simp only [SCM_MAX_FD] at hlen
        omega
      rw [show readByte ⟨([fds.length % 256], fds) :: rest, q⟩
            = some (fds.length % 256, ⟨rest, q ++ fds⟩) from rfl]
      rw [hsmall]
      have h255 : fds.length ≠ 255 := by
        simp only [SCM_MAX_FD] at hlen
        omega
      simp only [h255, if_false]
      have hmin : min fds.length SCM_MAX_FD = fds.length := by
        simp only [SCM_MAX_FD] at hlen ⊢
        omega
      rw [hmin]

/-- `Pipe::read_fds` exactly recovers what `Pipe::write_fds` wrote, clearing
the descriptor queue and leaving the rest of the stream untouched. -/
theorem read_fds_write (fds : List Fd) (rest : List Chunk) :
    Pipe.read_fds ⟨write_fds fds ++ rest, []⟩ = .ok (fds, ⟨rest, []⟩) := by
  unfold Pipe.read_fds
  rw [read_fds_loop_write fds.length fds le_rfl rest []]
  simp

theorem write_all_of_ne (b : List Nat) (h : b ≠ []) : write_all b = [(b, [])] := by
  unfold write_all
  rw [if_neg]
  simpa using h

/-- The frame `Pipe::send` produces: type id, length, payload, descriptor
chunks, leaving the side-channel empty. -/
theorem send_ok (c : Codec α) (v : α) (buf : FdBuf) (bytes : List Nat) (pushed : FdBuf)
    (hb : buf.filterMap id = []) (he : c.enc v [] = (some bytes, pushed)) :
    Pipe.send c v buf = .ok ((c.tid, []) :: (natToLeBytes 8 bytes.length, [])
      :: (write_all bytes ++ write_fds (pushed.filterMap id))) [] := by
  have htid : write_all c.tid = [(c.tid, [])] := by
    apply write_all_of_ne
    intro h
    have := c.tid_len
    rw [h] at this
    simp at this
  have hlen8 : write_all (natToLeBytes 8 bytes.length) = [(natToLeBytes 8 bytes.length, [])] := by
    apply write_all_of_ne
    intro h
    have := natToLeBytes_length 8 bytes.length
    rw [h] at this
    simp at this
  unfold Pipe.send swap_fds
  simp [hb, he, htid, hlen8]

/-- `Pipe::send` panics when the side-channel is not empty on entry, and
resets it. -/
theorem send_dirty (c : Codec α) (v : α) (buf : FdBuf) (hb : buf.filterMap id ≠ []) :
    Pipe.send c v buf = .panicked "orphaned file descriptors in channel" [] := by
  unfold Pipe.send swap_fds
  have : (buf.filterMap id).length ≠ 0 := by
    intro h
    exact hb (List.length_eq_zero.mp h)
  simp [this]

theorem readBytesN_write_all (d : List Nat) : ∀ (rest : List Chunk) (q : List Fd),
    readBytesN d.length ⟨write_all d ++ rest, q⟩ = some (d, ⟨rest, q⟩) := by
  intro rest q
  cases d with
  | nil => simp [write_all, readBytesN]
  | cons b bs =>
    rw [write_all_of_ne (b :: bs) (by simp)]
    exact readBytesN_chunk (b :: bs) rest q (by simp)

theorem readBytesN_write_all_len (d : List Nat) (n : Nat) (h : d.length = n) :
    ∀ (rest : List Chunk) (q : List Fd),
    readBytesN n ⟨write_all d ++ rest, q⟩ = some (d, ⟨rest, q⟩) := by
  subst h
  exact readBytesN_write_all d

/-- `Pipe::recv_delayed` parses the frame `Pipe::send` wrote, leaving the
following chunks on the stream with an empty descriptor queue. -/
theorem recv_delayed_frame (tid bytes : List Nat) (fds : List Fd) (rest : List Chunk)
    (h16 : tid.length = 16) (hsmall : bytes.length < 256 ^ 8) :
    Pipe.recv_delayed ⟨write_all tid ++ (write_all (natToLeBytes 8 bytes.length)
        ++ (write_all bytes ++ (write_fds fds ++ rest))), []⟩
      = .ok (⟨tid, bytes, fds⟩, ⟨rest, []⟩) := by
  unfold Pipe.recv_delayed
  simp only [readBytesN_write_all_len tid 16 h16,
    readBytesN_write_all_len (natToLeBytes 8 bytes.length) 8 (natToLeBytes_length 8 bytes.length),
    leBytesToNat_natToLeBytes_small 8 bytes.length hsmall,
    readBytesN_write_all bytes, read_fds_write]

/-- `DelayedRecv::deserialize` with a matching type id, a clean side-channel
and a lawful decode: the value comes back and the side-channel is empty. -/
theorem deserialize_staged (c : Codec α) (v : α) (bytes : List Nat) (fds : List Fd)
    (buf final : FdBuf) (hb : buf.filterMap id = [])
    (hdec : c.dec bytes (fds.map some) = .ok (some v, final))
    (hfin : final.filterMap id = []) :
    DelayedRecv.deserialize c ⟨c.tid, bytes, fds⟩ buf = .ok v [] := by
  unfold DelayedRecv.deserialize swap_fds
  simp [hb, hdec, hfin]

/-- `DelayedRecv::deserialize` rejects a mismatched type id with a decode
error before touching the side-channel. -/
theorem deserialize_mismatch (c : Codec α) (d : DelayedRecv) (buf : FdBuf)
    (h : d.type_id ≠ c.tid) :
    DelayedRecv.deserialize c d buf = .err (.decode ("Invalid type id for " ++ c.name)) buf := by
  unfold DelayedRecv.deserialize
  simp [h]

theorem frame_as_write_all (c : Codec α) (bytes : List Nat) (fds : List Fd)
    (rest : List Chunk) :
    ((c.tid, []) :: (natToLeBytes 8 bytes.length, [])
        :: (write_all bytes ++ write_fds fds)) ++ rest
      = write_all c.tid ++ (write_all (natToLeBytes 8 bytes.length)
        ++ (write_all bytes ++ (write_fds fds ++ rest))) := by
  rw [write_all_of_ne c.tid (by
    intro h
    have := c.tid_len
    rw [h] at this
    simp at this)]
  rw [write_all_of_ne (natToLeBytes 8 bytes.length) (by
    intro h
    have := natToLeBytes_length 8 bytes.length
    rw [h] at this
    simp at this)]
  simp [List.append_assoc]

/-- Receiving the frame `Pipe::send` wrote, with the same codec, returns the
sent value, consumes exactly the frame, and leaves both side-channels empty. -/
theorem recv_send_frame (c : Codec α) (v : α) (bytes : List Nat) (pushed final : FdBuf)
    (rest : List Chunk)
    (hsmall : bytes.length < 256 ^ 8)
    (hdec : c.dec bytes ((pushed.filterMap id).map some) = .ok (some v, final))
    (hfin : final.filterMap id = []) :
    Pipe.recv c ⟨((c.tid, []) :: (natToLeBytes 8 bytes.length, [])
      :: (write_all bytes ++ write_fds (pushed.filterMap id))) ++ rest, []⟩ []
      = .ok (v, ⟨rest, []⟩) [] := by
  unfold Pipe.recv
  rw [frame_as_write_all c bytes (pushed.filterMap id) rest]
  simp only [recv_delayed_frame c.tid bytes (pushed.filterMap id) rest c.tid_len hsmall,
    deserialize_staged c v bytes (pushed.filterMap id) [] final rfl hdec hfin]

theorem write_fds_small (fds : List Fd) (h : ¬ SCM_MAX_FD < fds.length) :
    write_fds fds = [([fds.length % 256], fds)] := by
  rw [write_fds_eq]
  simp [h]

theorem write_fds_shape_small (fds : List Fd) (hsm : ¬ SCM_MAX_FD < fds.length) :
    write_fds fds ≠ [] ∧
    ∀ (i : Nat) (ch : Chunk), (write_fds fds).get? i = some ch →
      ch.1.length = 1 ∧
      (ch.1 = [255] ↔ i + 1 < (write_fds fds).length) ∧
      (ch.1 = [255] → ch.2.length = SCM_MAX_FD) ∧
      (ch.1 ≠ [255] → ch.1 = [ch.2.length]) := by
  have hmod : fds.length % 256 = fds.length := by
    apply Nat.mod_eq_of_lt
    simp only [SCM_MAX_FD] at hsm
    omega
  have h255 : fds.length ≠ 255 := by
    simp only [SCM_MAX_FD] at hsm
    omega
  rw [write_fds_small fds hsm]
  refine ⟨by simp, ?_⟩
  intro i ch hch
  cases i with
  | zero =>
    simp only [List.get?_cons_zero, Option.some.injEq] at hch
    subst hch
    refine ⟨by simp, ?_, ?_, ?_⟩
    · simp only [List.length_singleton]
      constructor
      · intro hx
        simp only [List.cons.injEq, and_true] at hx
        rw [hmod] at hx
        exact absurd hx h255
      · omega
    · intro hx
      simp only [List.cons.injEq, and_true] at hx
      rw [hmod] at hx
      exact absurd hx h255
    · intro _
      rw [hmod]
  | succ j =>
    simp at hch

theorem write_fds_shape : ∀ (n : Nat) (fds : List Fd), fds.length ≤ n →
    write_fds fds ≠ [] ∧
    ∀ (i : Nat) (ch : Chunk), (write_fds fds).get? i = some ch →
      ch.1.length = 1 ∧
      (ch.1 = [255] ↔ i + 1 < (write_fds fds).length) ∧
      (ch.1 = [255] → ch.2.length = SCM_MAX_FD) ∧
      (ch.1 ≠ [255] → ch.1 = [ch.2.length]) := by
  intro n
  induction n with
  | zero =>
    intro fds hn
    have hz : fds.length = 0 := Nat.le_zero.mp hn
    apply write_fds_shape_small
    simp only [SCM_MAX_FD]
    omega
  | succ m ih =>
    intro fds hn
    by_cases hbig : SCM_MAX_FD < fds.length
    · have hdrop : (fds.drop SCM_MAX_FD).length ≤ m := by
        simp only [List.length_drop]
        simp only [SCM_MAX_FD] at hbig hn ⊢
        omega
      obtain ⟨htne, htget⟩ := ih (fds.drop SCM_MAX_FD) hdrop
      rw [write_fds_eq]
      simp only [hbig, if_true]
      refine ⟨by simp, ?_⟩
      intro i ch hch
      cases i with
      | zero =>
        simp only [List.get?_cons_zero, Option.some.injEq] at hch
        subst hch
        refine ⟨by simp, ?_, ?_, ?_⟩
        · simp only [List.length_cons, true_iff]
          have := List.length_pos.mpr htne
          omega
        · intro _
          simp only [List.length_take]
          simp only [SCM_MAX_FD] at hbig ⊢
          omega
        · intro hne
          exact absurd rfl hne
      | succ j =>
        simp only [List.get?_cons_succ] at hch
        obtain ⟨p1, p2, p3, p4⟩ := htget j ch hch
        refine ⟨p1, ?_, p3, p4⟩
        rw [p2]
        simp only [List.length_cons]
        omega
    · exact write_fds_shape_small fds hbig

/-- A concrete wire-capable type for witnesses: `bool` with a one-byte
payload and no descriptors. -/
def boolCodec : Codec Bool where
  name := "bool"
  tid := List.replicate 16 1
  tid_len := by simp
  enc := fun b buf => (some [if b then 1 else 0], buf)
  dec := fun bytes buf =>
    .ok (if bytes = [1] then (some true, buf)
         else if bytes = [0] then (some false, buf)
         else (none, buf))

/-- A second concrete wire-capable type with a distinct runtime type id. -/
def unitCodec : Codec Unit where
  name := "alloc::vec::Vec<u8>"
  tid := List.replicate 16 2
  tid_len := by simp
  enc := fun _ buf => (some [], buf)
  dec := fun bytes buf => .ok ((if bytes = [] then some () else none), buf)

/-- C1: for every wire-capable type `T` and value `v : T`, sending `v` on one
end of a connected `Pipe` pair and receiving as `T` on the other end succeeds
and returns a value equal to `v` (both side-channels end empty and the frame
is consumed exactly). -/
theorem pipe_roundtrip (c : Codec α) (v : α) (h : c.GoodAt v) :
    ∃ chunks, Pipe.send c v [] = .ok chunks [] ∧
      Pipe.recv c ⟨chunks, []⟩ [] = .ok (v, ⟨[], []⟩) [] := by
  obtain ⟨bytes, pushed, final, he, hsmall, hdec, hfin⟩ := h
  refine ⟨_, send_ok c v [] bytes pushed rfl he, ?_⟩
  have h2 := recv_send_frame c v bytes pushed final [] hsmall hdec hfin
  simpa using h2

/-- C1 witness: the round trip at the concrete codec `boolCodec` and the
value `true`. -/
theorem pipe_roundtrip_witness :
    ∃ chunks, Pipe.send boolCodec true [] = .ok chunks [] ∧
      Pipe.recv boolCodec ⟨chunks, []⟩ [] = .ok (true, ⟨[], []⟩) [] :=
  pipe_roundtrip boolCodec true ⟨[1], [], [], rfl, by norm_num, rfl, rfl⟩

/-- C2: sending a value as `T` and receiving as `U ≠ T` (distinct runtime
type ids) fails with the `Decode` variant carrying the type-id-mismatch
message; no panic, no value. -/
theorem pipe_type_mismatch (cT : Codec α) (cU : Codec β) (v : α)
    (hne : cU.tid ≠ cT.tid) (h : cT.GoodAt v) :
    ∃ chunks, Pipe.send cT v [] = .ok chunks [] ∧
      Pipe.recv cU ⟨chunks, []⟩ [] =
        .err (.decode ("Invalid type id for " ++ cU.name)) [] := by
  obtain ⟨bytes, pushed, final, he, hsmall, hdec, hfin⟩ := h
  refine ⟨_, send_ok cT v [] bytes pushed rfl he, ?_⟩
  unfold Pipe.recv
  rw [show ((cT.tid, []) :: (natToLeBytes 8 bytes.length, [])
        :: (write_all bytes ++ write_fds (pushed.filterMap id)))
      = ((cT.tid, []) :: (natToLeBytes 8 bytes.length, [])
        :: (write_all bytes ++ write_fds (pushed.filterMap id))) ++ [] by simp]
  rw [frame_as_write_all cT bytes (pushed.filterMap id) []]
  simp only [recv_delayed_frame cT.tid bytes (pushed.filterMap id) [] cT.tid_len hsmall,
    deserialize_mismatch cU ⟨cT.tid, bytes, pushed.filterMap id⟩ [] (Ne.symm hne)]

/-- C2 witness: `boolCodec` against `unitCodec`, whose type ids differ. -/
theorem pipe_type_mismatch_witness :
    ∃ chunks, Pipe.send boolCodec true [] = .ok chunks [] ∧
      Pipe.recv unitCodec ⟨chunks, []⟩ [] =
        .err (.decode ("Invalid type id for " ++ unitCodec.name)) [] :=
  pipe_type_mismatch boolCodec unitCodec true (by decide)
    ⟨[1], [], [], rfl, by norm_num, rfl, rfl⟩

/-- Inversion of a successful `Pipe::send`: the side-channel was clean, the
encode succeeded, the frame has the four-part layout, and the side-channel
ends empty. -/
theorem send_ok_inv (c : Codec α) (v : α) (buf : FdBuf) (chunks : List Chunk) (buf1 : FdBuf)
    (h : Pipe.send c v buf = .ok chunks buf1) :
    ∃ bytes pushed, c.enc v [] = (some bytes, pushed) ∧
      chunks = (c.tid, []) :: (natToLeBytes 8 bytes.length, [])
        :: (write_all bytes ++ write_fds (pushed.filterMap id)) ∧
      buf1 = [] := by
  unfold Pipe.send swap_fds at h
  simp only [List.map_nil] at h
  by_cases hb : (List.filterMap id buf).length ≠ 0
  · rw [if_pos hb] at h
    simp at h
  · rw [if_neg hb] at h
    rcases he : c.enc v [] with ⟨opt, pushed⟩
    rw [he] at h
    cases opt with
    | none => simp at h
    | some bytes =>
      simp only [StRes.ok.injEq] at h
      have htid : write_all c.tid = [(c.tid, [])] := by
        apply write_all_of_ne
        intro hx
        have := c.tid_len
        rw [hx] at this
        simp at this
      have hlen8 : write_all (natToLeBytes 8 bytes.length)
          = [(natToLeBytes 8 bytes.length, [])] := by
        apply write_all_of_ne
        intro hx
        have := natToLeBytes_length 8 bytes.length
        rw [hx] at this
        simp at this
      refine ⟨bytes, pushed, by first | exact he | rfl, ?_, h.2.symm⟩
      rw [← h.1, htid, hlen8]
      simp [List.append_assoc]

/-- Inversion of a successful `DelayedRecv::deserialize`: the final
`swap_fds(vec![])` leaves the side-channel empty. -/
theorem deserialize_ok_inv (c : Codec α) (d : DelayedRecv) (buf : FdBuf) (v : α) (buf1 : FdBuf)
    (h : DelayedRecv.deserialize c d buf = .ok v buf1) : buf1 = [] := by
  unfold DelayedRecv.deserialize swap_fds at h
  simp only [List.map_nil] at h
  by_cases htid : d.type_id ≠ c.tid
  · rw [if_pos htid] at h
    simp at h
  · rw [if_neg htid] at h
    by_cases hb : (List.filterMap id buf).length ≠ 0
    · rw [if_pos hb] at h
      simp at h
    · rw [if_neg hb] at h
      cases hdec : c.dec d.buffer (List.map some d.fds) with
      | panicked m buf2 =>
        rw [hdec] at h
        simp at h
      | ok a =>
        rw [hdec] at h
        rcases a with ⟨opt, buf2⟩
        cases opt with
        | none => simp at h
        | some w =>
          simp only at h
          by_cases hl : (List.filterMap id buf2).length ≠ 0
          · rw [if_pos hl] at h
            simp at h
          · rw [if_neg hl] at h
            simp only [StRes.ok.injEq] at h
            exact h.2.symm

/-- C5: every frame `Pipe::send` writes is, in order, the 16-byte runtime
type fingerprint, the 8-byte native-endian payload length, the payload
bytes, then one or more descriptor chunks; a chunk's one-byte count is `255`
iff a further chunk follows, a `255` chunk carries exactly `SCM_MAX_FD = 253`
descriptors, a final chunk's count byte is its descriptor count; and the
reader's chunk decoding (`Pipe::read_fds`) recovers exactly the descriptor
list that was written. -/
theorem send_frame_format :
    (∀ (α : Type) (c : Codec α) (v : α) (buf : FdBuf) (chunks : List Chunk) (buf1 : FdBuf),
      Pipe.send c v buf = .ok chunks buf1 →
      ∃ bytes pushed, c.enc v [] = (some bytes, pushed) ∧
        c.tid.length = 16 ∧ (natToLeBytes 8 bytes.length).length = 8 ∧
        chunks = (c.tid, []) :: (natToLeBytes 8 bytes.length, [])
          :: (write_all bytes ++ write_fds (pushed.filterMap id))) ∧
    (∀ fds : List Fd, write_fds fds ≠ [] ∧
      ∀ (i : Nat) (ch : Chunk), (write_fds fds).get? i = some ch →
        ch.1.length = 1 ∧
        (ch.1 = [255] ↔ i + 1 < (write_fds fds).length) ∧
        (ch.1 = [255] → ch.2.length = SCM_MAX_FD) ∧
        (ch.1 ≠ [255] → ch.1 = [ch.2.length])) ∧
    (∀ (fds : List Fd) (rest : List Chunk),
      Pipe.read_fds ⟨write_fds fds ++ rest, []⟩ = .ok (fds, ⟨rest, []⟩)) := by
  refine ⟨?_, fun fds => write_fds_shape fds.length fds le_rfl,
    fun fds rest => read_fds_write fds rest⟩
  intro α c v buf chunks buf1 h
  obtain ⟨bytes, pushed, he, hc, _⟩ := send_ok_inv c v buf chunks buf1 h
  exact ⟨bytes, pushed, he, c.tid_len, natToLeBytes_length 8 bytes.length, hc⟩

/-- `DelayedRecv::deserialize` panics (the orphaned-descriptors assert) when
the decode leaves staged descriptors unclaimed, resetting the side-channel. -/
theorem deserialize_leftover_panics (c : Codec α) (d : DelayedRecv) (buf : FdBuf)
    (v : α) (buf2 : FdBuf)
    (htid : d.type_id = c.tid) (hb : buf.filterMap id = [])
    (hdec : c.dec d.buffer (d.fds.map some) = .ok (some v, buf2))
    (hleft : buf2.filterMap id ≠ []) :
    DelayedRecv.deserialize c d buf = .panicked "orphaned file descriptors in channel" [] := by
  unfold DelayedRecv.deserialize swap_fds
  rw [if_neg (by simp [htid])]
  rw [hb]
  simp only [List.length_nil, ne_eq, not_true_eq_false, if_false, hdec, List.map_nil]
  rw [if_pos]
  intro hz
  exact hleft (List.length_eq_zero.mp hz)

/-- C6: after every successful `Pipe::send` and every successful
`DelayedRecv::deserialize` the thread-local FD side-channel is empty; a
non-empty side-channel at the start of a send, or descriptors left unclaimed
after a deserialize, cause a panic (the `orphaned file descriptors` assert),
not a returned error. -/
theorem side_channel_invariants :
    (∀ (α : Type) (c : Codec α) (v : α) (buf : FdBuf) (chunks : List Chunk) (buf1 : FdBuf),
      Pipe.send c v buf = .ok chunks buf1 → buf1 = []) ∧
    (∀ (α : Type) (c : Codec α) (d : DelayedRecv) (buf : FdBuf) (v : α) (buf1 : FdBuf),
      DelayedRecv.deserialize c d buf = .ok v buf1 → buf1 = []) ∧
    (∀ (α : Type) (c : Codec α) (v : α) (buf : FdBuf), buf.filterMap id ≠ [] →
      Pipe.send c v buf = .panicked "orphaned file descriptors in channel" []) ∧
    (∀ (α : Type) (c : Codec α) (d : DelayedRecv) (buf : FdBuf) (v : α) (buf2 : FdBuf),
      d.type_id = c.tid → buf.filterMap id = [] →
      c.dec d.buffer (d.fds.map some) = .ok (some v, buf2) → buf2.filterMap id ≠ [] →
      DelayedRecv.deserialize c d buf
        = .panicked "orphaned file descriptors in channel" []) := by
  refine ⟨?_, ?_, ?_, ?_⟩
  · intro α c v buf chunks buf1 h
    obtain ⟨_, _, _, _, hb1⟩ := send_ok_inv c v buf chunks buf1 h
    exact hb1
  · intro α c d buf v buf1 h
    exact deserialize_ok_inv c d buf v buf1 h
  · intro α c v buf hb
    exact send_dirty c v buf hb
  · intro α c d buf v buf2 htid hb hdec hleft
    exact deserialize_leftover_panics c d buf v buf2 htid hb hdec hleft

/-- C7: the child's main loop exits the process with status 0 when it stops
with an IO error of kind `UnexpectedEof` or `BrokenPipe` (or returns
cleanly), and with status 1 on any other error. -/
theorem zygote_exit_policy :
    ∀ r : Except Err Unit,
      (zygote_start_code r = 0 ↔
        r = .ok () ∨ r = .error (.io .unexpectedEof) ∨ r = .error (.io .brokenPipe)) ∧
      (zygote_start_code r = 1 ↔
        ¬ (r = .ok () ∨ r = .error (.io .unexpectedEof) ∨ r = .error (.io .brokenPipe))) := by
  intro r
  cases r with
  | ok u =>
    cases u
    exact ⟨by simp [zygote_start_code], by simp [zygote_start_code]⟩
  | error e =>
    cases e with
    | io k =>
      cases k
      · exact ⟨by simp [zygote_start_code], by simp [zygote_start_code]⟩
      · exact ⟨by simp [zygote_start_code], by simp [zygote_start_code]⟩
      · exact ⟨by simp [zygote_start_code], by simp [zygote_start_code]⟩
    | decode m => exact ⟨by simp [zygote_start_code], by simp [zygote_start_code]⟩
    | encode m => exact ⟨by simp [zygote_start_code], by simp [zygote_start_code]⟩
    | wire w => exact ⟨by simp [zygote_start_code], by simp [zygote_start_code]⟩

/-- C10: `SendableFd`'s deserializer panics with `expected an FD` when the
decoded index has no descriptor in the side-channel (out of range or already
taken) instead of returning a decode error; for an in-range, not-yet-taken
index it succeeds, removes that descriptor (so a second take of the same
index panics), and returns it. -/
theorem sendable_fd_take :
    ∀ (n : Nat) (buf : FdBuf),
      (buf.get? n = none →
        SendableFd.deserializeIdx n buf = .panicked "expected an FD" buf) ∧
      (buf.get? n = some none →
        SendableFd.deserializeIdx n buf = .panicked "expected an FD" (buf.set n none)) ∧
      (∀ fd, buf.get? n = some (some fd) →
        SendableFd.deserializeIdx n buf = .ok (fd, buf.set n none) ∧
        (buf.set n none).get? n = some none ∧
        SendableFd.deserializeIdx n (buf.set n none)
          = .panicked "expected an FD" ((buf.set n none).set n none)) := by
  intro n buf
  refine ⟨?_, ?_, ?_⟩
  · intro h
    unfold SendableFd.deserializeIdx take_fd
    rw [h]
  · intro h
    unfold SendableFd.deserializeIdx take_fd
    rw [h]
  · intro fd h
    have hlt : n < buf.length := by
      by_contra hge
      rw [List.get?_eq_none.mpr (by omega)] at h
      cases h
    have hset : (buf.set n none).get? n = some none := by
      rw [List.get?_set_eq, h]
      rfl
    refine ⟨?_, hset, ?_⟩
    · unfold SendableFd.deserializeIdx take_fd
      rw [h]
    · unfold SendableFd.deserializeIdx take_fd
      rw [hset]

/-- C4 counterexample: with `P = (pid 1, ppid 0)` and next free pid 2, the
claim's conjunction fails — the grandchild zygote created by
`P.zyg.spawn()` observes `getppid() = 1` (the pid of `P`), not the pid of
`P.zyg` (which is 2), because `spawner` calls `Zygote::new_impl(true)`,
a `CLONE_PARENT` clone. -/
theorem spawn_topology_cex :
    ¬ ((nestedScenario ⟨1, 0⟩ ⟨2⟩).2.pid ≠ 1 ∧
       (nestedScenario ⟨1, 0⟩ ⟨2⟩).2.pid ≠ (nestedScenario ⟨1, 0⟩ ⟨2⟩).1.pid ∧
       (nestedScenario ⟨1, 0⟩ ⟨2⟩).2.ppid = (nestedScenario ⟨1, 0⟩ ⟨2⟩).1.pid) := by
  decide

/-- C4 (amended): for `P.zyg = Zygote::new()` in `P` and
`P.zyg.zyg = P.zyg.spawn()`, the pid observed in `P.zyg.zyg` differs from the
pids of `P` and `P.zyg`, and the parent pid observed in `P.zyg.zyg` equals
`P`'s pid: `spawn` creates a sibling of the current zygote (a child of the
zygote's parent), as `Zygote::new_impl(true)` uses `CLONE_PARENT`. -/
theorem spawn_topology (p : Proc) (w : World) (hfresh : p.pid < w.next) :
    (nestedScenario p w).2.pid ≠ p.pid ∧
    (nestedScenario p w).2.pid ≠ (nestedScenario p w).1.pid ∧
    (nestedScenario p w).2.ppid = p.pid := by
  unfold nestedScenario Zygote.new_proc Zygote.spawn_proc clone_proc
  simp
  omega

/-- C4 witness: the amended topology at the concrete scenario. -/
theorem spawn_topology_witness :
    (nestedScenario ⟨1, 0⟩ ⟨2⟩).2.pid ≠ 1 ∧
    (nestedScenario ⟨1, 0⟩ ⟨2⟩).2.pid ≠ (nestedScenario ⟨1, 0⟩ ⟨2⟩).1.pid ∧
    (nestedScenario ⟨1, 0⟩ ⟨2⟩).2.ppid = 1 :=
  spawn_topology ⟨1, 0⟩ ⟨2⟩ (by decide)

/-- The frame `Pipe::send` writes for a value whose encode produced `bytes`
pushing `pushed`. -/
def sendFrame (c : Codec α) (bytes : List Nat) (pushed : FdBuf) : List Chunk :=
  (c.tid, []) :: (natToLeBytes 8 bytes.length, [])
    :: (write_all bytes ++ write_fds (pushed.filterMap id))

theorem send_ok_frame (c : Codec α) (v : α) (buf : FdBuf) (bytes : List Nat) (pushed : FdBuf)
    (hb : buf.filterMap id = []) (he : c.enc v [] = (some bytes, pushed)) :
    Pipe.send c v buf = .ok (sendFrame c bytes pushed) [] :=
  send_ok c v buf bytes pushed hb he

theorem recv_sendFrame (c : Codec α) (v : α) (bytes : List Nat) (pushed final : FdBuf)
    (rest : List Chunk)
    (hsmall : bytes.length < 256 ^ 8)
    (hdec : c.dec bytes ((pushed.filterMap id).map some) = .ok (some v, final))
    (hfin : final.filterMap id = []) :
    Pipe.recv c ⟨sendFrame c bytes pushed ++ rest, []⟩ []
      = .ok (v, ⟨rest, []⟩) [] :=
  recv_send_frame c v bytes pushed final rest hsmall hdec hfin

theorem recv_delayed_sendFrame (c : Codec α) (bytes : List Nat) (pushed : FdBuf)
    (rest : List Chunk) (hsmall : bytes.length < 256 ^ 8) :
    Pipe.recv_delayed ⟨sendFrame c bytes pushed ++ rest, []⟩
      = .ok (⟨c.tid, bytes, pushed.filterMap id⟩, ⟨rest, []⟩) := by
  unfold sendFrame
  rw [frame_as_write_all c bytes (pushed.filterMap id) rest]
  exact recv_delayed_frame c.tid bytes (pushed.filterMap id) rest c.tid_len hsmall

/-- The `WireError` `take_panic` yields after a panic with payload `m` in a
child whose `PANIC_ERROR` cell was empty before the hook ran. -/
def panicReply (hook : String → Option WireError) (m : String) : WireError :=
  match hook m with
  | some e => e
  | none => WireError.fromStr "panic information not found"

/-- The `Result<Ret, WireError>` the trampoline sends back for a task run
from a clean child state. -/
def replyValue (hook : String → Option WireError) (task : A → TaskOut R) (args : A) :
    WResult R :=
  match task args with
  | .ok r => .ok r
  | .panics m => .err (panicReply hook m)

/-- The result `Zygote::try_run` surfaces for that reply: the value, or the
child-side error wrapped in `Error::Wire`. -/
def parentResult (hook : String → Option WireError) (task : A → TaskOut R) (args : A) :
    StRes R :=
  match task args with
  | .ok r => .ok r []
  | .panics m => .err (.wire (panicReply hook m)) []

theorem orElse_none_cell (o : Option WireError) :
    (o.orElse fun _ => none) = o := by
  cases o <;> rfl

/-- `runner` on a clean child state, fed the argument frame: it replies with
the encoded `Result<Ret, WireError>` of `replyValue` and leaves the child
state clean. -/
theorem runner_spec (cA : Codec A) (cRes : Codec (WResult R))
    (hook : String → Option WireError) (task : A → TaskOut R) (args : A)
    (rest : List Chunk)
    (b2 : List Nat) (p2 fin2 : FdBuf) (b3 : List Nat) (p3 : FdBuf)
    (hs2 : b2.length < 256 ^ 8)
    (hd2 : cA.dec b2 ((p2.filterMap id).map some) = .ok (some args, fin2))
    (hf2 : fin2.filterMap id = [])
    (he3 : cRes.enc (replyValue hook task args) [] = (some b3, p3)) :
    runner cA cRes hook task ⟨sendFrame cA b2 p2 ++ rest, []⟩ ⟨none, []⟩
      = .reply (sendFrame cRes b3 p3) ⟨rest, []⟩ ⟨none, []⟩ := by
  unfold runner
  rw [recv_delayed_sendFrame cA b2 p2 rest hs2]
  have hdes := deserialize_staged cA args b2 (p2.filterMap id) [] fin2 rfl hd2 hf2
  simp only [hdes]
  cases htask : task args with
  | ok r =>
    have hrv : replyValue hook task args = .ok r := by
      unfold replyValue
      rw [htask]
    rw [hrv] at he3
    simp only [send_ok_frame cRes (.ok r) [] b3 p3 rfl he3]
  | panics m =>
    have hrv : replyValue hook task args = .err (panicReply hook m) := by
      unfold replyValue
      rw [htask]
    rw [hrv] at he3
    simp only [orElse_none_cell]
    have htp : take_panic (hook m) = (panicReply hook m, none) := by
      unfold take_panic panicReply
      cases hook m <;> rfl
    simp only [htp]
    simp only [send_ok_frame cRes (.err (panicReply hook m)) [] b3 p3 rfl he3]

/-- One complete call on a clean handle: the parent gets `parentResult`
(the value, or the child-side panic as `Error::Wire`), both the parent FD
buffer and the child state end clean. -/
theorem callRound_spec (cAddr : Codec (Nat × Nat)) (cA : Codec A) (cRes : Codec (WResult R))
    (hook : String → Option WireError) (task : A → TaskOut R) (args : A)
    (fAddr raddr : Nat)
    (hAddr : cAddr.GoodAt (fAddr, raddr)) (hArgs : cA.GoodAt args)
    (hRes : cRes.GoodAt (replyValue hook task args)) :
    callRound cAddr cA cRes hook task args fAddr raddr [] ⟨none, []⟩
      = (parentResult hook task args, ⟨none, []⟩) := by
  obtain ⟨b1, p1, fin1, he1, hs1, hd1, hf1⟩ := hAddr
  obtain ⟨b2, p2, fin2, he2, hs2, hd2, hf2⟩ := hArgs
  obtain ⟨b3, p3, fin3, he3, hs3, hd3, hf3⟩ := hRes
  have hreq : tryRunRequest cAddr cA fAddr raddr args []
      = .ok (sendFrame cAddr b1 p1 ++ sendFrame cA b2 p2) [] := by
    unfold tryRunRequest
    simp only [send_ok_frame cAddr (fAddr, raddr) [] b1 p1 rfl he1,
      send_ok_frame cA args [] b2 p2 rfl he2]
  have hserve : childServe cAddr cA cRes hook task
      ⟨sendFrame cAddr b1 p1 ++ sendFrame cA b2 p2, []⟩ ⟨none, []⟩
      = .reply (sendFrame cRes b3 p3) ⟨[], []⟩ ⟨none, []⟩ := by
    unfold childServe
    have hrecv := recv_sendFrame cAddr (fAddr, raddr) b1 p1 fin1
      (sendFrame cA b2 p2) hs1 hd1 hf1
    simp only [hrecv]
    have := runner_spec cA cRes hook task args [] b2 p2 fin2 b3 p3 hs2 hd2 hf2 he3
    simpa using this
  unfold callRound
  simp only [hreq, hserve]
  unfold tryRunResponse
  have hrecv3 : Pipe.recv cRes ⟨sendFrame cRes b3 p3, []⟩ []
      = .ok (replyValue hook task args, ⟨[], []⟩) [] := by
    have h0 := recv_sendFrame cRes (replyValue hook task args) b3 p3 fin3 [] hs3 hd3 hf3
    simpa using h0
  simp only [hrecv3]
  unfold replyValue parentResult
  cases htask : task args with
  | ok r => simp
  | panics m => simp

/-- A sequence of calls on one clean handle completes call by call: each
result is the expected one, and after every call the parent FD buffer and
the child state are clean again. -/
theorem runSeq_spec (cAddr : Codec (Nat × Nat)) (cA : Codec A) (cRes : Codec (WResult R))
    (hook : String → Option WireError) (fAddr raddr : Nat) :
    ∀ calls : List ((A → TaskOut R) × A),
      cAddr.GoodAt (fAddr, raddr) →
      (∀ ta ∈ calls, cA.GoodAt ta.2 ∧ cRes.GoodAt (replyValue hook ta.1 ta.2)) →
      runSeq cAddr cA cRes hook fAddr raddr calls [] ⟨none, []⟩
        = (calls.map (fun ta => parentResult hook ta.1 ta.2), [], ⟨none, []⟩) := by
  intro calls
  induction calls with
  | nil => intro _ _; rfl
  | cons ta rest ih =>
    intro hAddr hcalls
    obtain ⟨t, a⟩ := ta
    have h1 := callRound_spec cAddr cA cRes hook t a fAddr raddr hAddr
      (hcalls (t, a) (by simp)).1 (hcalls (t, a) (by simp)).2
    unfold runSeq
    simp only [h1]
    have hbuf : (parentResult hook t a).buf = [] := by
      unfold parentResult StRes.buf
      cases t a <;> rfl
    rw [hbuf]
    rw [ih hAddr (fun ta2 hta2 => hcalls ta2 (by simp [hta2]))]
    simp

/-- C3: a dispatched task that panics makes `try_run` return an `Err` whose
description contains the panic message (the hook's `info.to_string()`), and
for any sequence of interleaved successful and panicking calls on one
handle, every call completes with its expected result and leaves the handle
(parent FD buffer, child `PANIC_ERROR` cell and FD buffer) clean for the
next call. -/
theorem panic_isolation :
    (∀ (A R : Type) (cAddr : Codec (Nat × Nat)) (cA : Codec A) (cRes : Codec (WResult R))
        (bt : Option String) (fAddr raddr : Nat) (calls : List ((A → TaskOut R) × A)),
      cAddr.GoodAt (fAddr, raddr) →
      (∀ ta ∈ calls, cA.GoodAt ta.2 ∧ cRes.GoodAt (replyValue (realHook bt) ta.1 ta.2)) →
      runSeq cAddr cA cRes (realHook bt) fAddr raddr calls [] ⟨none, []⟩
        = (calls.map (fun ta => parentResult (realHook bt) ta.1 ta.2), [], ⟨none, []⟩)) ∧
    (∀ (A R : Type) (task : A → TaskOut R) (args : A) (bt : Option String) (m : String),
      task args = .panics m →
      parentResult (realHook bt) task args = .err (.wire (panicWireError m bt)) [] ∧
      (panicWireError m bt).description = panicInfoString m ∧
      ∃ pre post, panicInfoString m = pre ++ m ++ post) ∧
    (∀ (A R : Type) (task : A → TaskOut R) (args : A) (bt : Option String) (r : R),
      task args = .ok r →
      parentResult (realHook bt) task args = .ok r []) := by
  refine ⟨?_, ?_, ?_⟩
  · intro A R cAddr cA cRes bt fAddr raddr calls hAddr hcalls
    exact runSeq_spec cAddr cA cRes (realHook bt) fAddr raddr calls hAddr hcalls
  · intro A R task args bt m htask
    refine ⟨?_, ?_, "panicked at: ", "", ?_⟩
    · unfold parentResult panicReply realHook
      rw [htask]
    · unfold panicWireError WireError.make WireError.description panicInfoString
      rfl
    · unfold panicInfoString
      rw [String.append_empty]
  · intro A R task args bt r htask
    unfold parentResult
    rw [htask]

/-- C9: if a task panics but the panic hook stored nothing in the
`PANIC_ERROR` cell, `take_panic` falls back to the error whose description is
exactly `panic information not found`; the child still replies and the
parent's `try_run` returns that error as `Error::Wire` instead of hanging or
dying, leaving the handle clean. -/
theorem panic_info_not_found (A R : Type) (cAddr : Codec (Nat × Nat)) (cA : Codec A)
    (cRes : Codec (WResult R)) (task : A → TaskOut R) (args : A) (m : String)
    (fAddr raddr : Nat)
    (hpanic : task args = .panics m)
    (hAddr : cAddr.GoodAt (fAddr, raddr)) (hArgs : cA.GoodAt args)
    (hRes : cRes.GoodAt (.err (WireError.fromStr "panic information not found"))) :
    callRound cAddr cA cRes (fun _ => none) task args fAddr raddr [] ⟨none, []⟩
      = (.err (.wire (WireError.fromStr "panic information not found")) [], ⟨none, []⟩) ∧
    (WireError.fromStr "panic information not found").description
      = "panic information not found" := by
  have hrv : replyValue (fun _ => none) task args
      = .err (WireError.fromStr "panic information not found") := by
    unfold replyValue panicReply
    rw [hpanic]
  have h := callRound_spec cAddr cA cRes (fun _ => none) task args fAddr raddr
    hAddr hArgs (hrv ▸ hRes)
  refine ⟨?_, rfl⟩
  rw [h]
  unfold parentResult panicReply
  rw [hpanic]

/-- C8: `try_run` sends, in order, the encoded `(f_addr, runner_addr)` pair
frame and then the encoded argument frame; it maps the received
`Result<Ret, WireError>` to the value on `Ok` and to `Error::Wire` on `Err`;
and `run` unwraps `try_run`, panicking on any error.  (The pipe mutex that
serialises concurrent callers is modelled by the sequential access here.) -/
theorem try_run_protocol :
    (∀ (A : Type) (cAddr : Codec (Nat × Nat)) (cA : Codec A) (fAddr raddr : Nat) (args : A)
        (b1 : List Nat) (p1 : FdBuf) (b2 : List Nat) (p2 : FdBuf),
      cAddr.enc (fAddr, raddr) [] = (some b1, p1) →
      cA.enc args [] = (some b2, p2) →
      tryRunRequest cAddr cA fAddr raddr args []
        = .ok (sendFrame cAddr b1 p1 ++ sendFrame cA b2 p2) []) ∧
    (∀ (R : Type) (cRes : Codec (WResult R)) (we : WireError)
        (b3 : List Nat) (p3 fin3 : FdBuf),
      b3.length < 256 ^ 8 →
      cRes.dec b3 ((p3.filterMap id).map some) = .ok (some (.err we), fin3) →
      fin3.filterMap id = [] →
      tryRunResponse cRes ⟨sendFrame cRes b3 p3, []⟩ [] = .err (.wire we) []) ∧
    (∀ (R : Type) (cRes : Codec (WResult R)) (r : R)
        (b3 : List Nat) (p3 fin3 : FdBuf),
      b3.length < 256 ^ 8 →
      cRes.dec b3 ((p3.filterMap id).map some) = .ok (some (.ok r), fin3) →
      fin3.filterMap id = [] →
      tryRunResponse cRes ⟨sendFrame cRes b3 p3, []⟩ [] = .ok (r, ⟨[], []⟩) []) ∧
    (∀ (R : Type) (r : R) (b : FdBuf), runWrap (.ok r b) = .ok r b) ∧
    (∀ (R : Type) (e : Err) (b : FdBuf),
      runWrap (StRes.err e b : StRes R)
        = .panicked ("called Result::unwrap on an Err value: " ++ e.display) b) ∧
    (∀ (R : Type) (m : String) (b : FdBuf),
      runWrap (StRes.panicked m b : StRes R) = .panicked m b) := by
  refine ⟨?_, ?_, ?_, ?_, ?_, ?_⟩
  · intro A cAddr cA fAddr raddr args b1 p1 b2 p2 he1 he2
    unfold tryRunRequest
    simp only [send_ok_frame cAddr (fAddr, raddr) [] b1 p1 rfl he1,
      send_ok_frame cA args [] b2 p2 rfl he2]
  · intro R cRes we b3 p3 fin3 hs3 hd3 hf3
    unfold tryRunResponse
    have h0 := recv_sendFrame cRes (.err we) b3 p3 fin3 [] hs3 hd3 hf3
    rw [List.append_nil] at h0
    simp only [h0]
  · intro R cRes r b3 p3 fin3 hs3 hd3 hf3
    unfold tryRunResponse
    have h0 := recv_sendFrame cRes (.ok r) b3 p3 fin3 [] hs3 hd3 hf3
    rw [List.append_nil] at h0
    simp only [h0]
  · intro R r b
    rfl
  · intro R e b
    rfl
  · intro R m b
    rfl

/-- A concrete codec for the `[usize; 2]` dispatch record. -/
def pairCodec : Codec (Nat × Nat) where
  name := "[usize; 2]"
  tid := List.replicate 16 3
  tid_len := by simp
  enc := fun ab buf => (some (natToLeBytes 8 ab.1 ++ natToLeBytes 8 ab.2), buf)
  dec := fun bytes buf =>
    .ok ((if bytes.length = 16 then
            some (leBytesToNat (bytes.take 8), leBytesToNat (bytes.drop 8))
          else none), buf)

/-- A concrete codec for `Result<bool, WireError>` able to carry the reply of
a task that panicked with payload `oops` under the real panic hook. -/
def wresCodecA : Codec (WResult Bool) where
  name := "Result<bool, WireError>"
  tid := List.replicate 16 4
  tid_len := by simp
  enc := fun v buf =>
    (some (match v with
           | .ok true => [1, 1]
           | .ok false => [1, 0]
           | .err _ => [0]), buf)
  dec := fun bytes buf =>
    .ok ((if bytes = [1, 1] then some (.ok true)
          else if bytes = [1, 0] then some (.ok false)
          else if bytes = [0] then some (.err (panicWireError "oops" none))
          else none), buf)

/-- A concrete codec for `Result<bool, WireError>` able to carry the
`panic information not found` fallback error. -/
def wresCodecB : Codec (WResult Bool) where
  name := "Result<bool, WireError>"
  tid := List.replicate 16 5
  tid_len := by simp
  enc := fun v buf =>
    (some (match v with
           | .ok true => [1, 1]
           | .ok false => [1, 0]
           | .err _ => [0]), buf)
  dec := fun bytes buf =>
    .ok ((if bytes = [1, 1] then some (.ok true)
          else if bytes = [1, 0] then some (.ok false)
          else if bytes = [0] then
            some (.err (WireError.fromStr "panic information not found"))
          else none), buf)

/-- C3 witness: a panicking call followed by a successful call on one handle,
at concrete codecs; the panic surfaces as `Error::Wire` and the next call
still returns its value. -/
theorem panic_isolation_witness :
    runSeq pairCodec boolCodec wresCodecA (realHook none) 5 7
        [(fun _ => TaskOut.panics "oops", true), (fun b => TaskOut.ok b, true)]
        [] ⟨none, []⟩
      = ([.err (.wire (panicWireError "oops" none)) [], .ok true []], [], ⟨none, []⟩) := by
  have h := panic_isolation.1 Bool Bool pairCodec boolCodec wresCodecA none 5 7
    [(fun _ => TaskOut.panics "oops", true), (fun b => TaskOut.ok b, true)]
    ⟨natToLeBytes 8 5 ++ natToLeBytes 8 7, [], [], rfl, by decide, by decide, rfl⟩
    (by
      intro ta hta
      simp only [List.mem_cons, List.mem_singleton] at hta
      rcases hta with h1 | h2
      · subst h1
        exact ⟨⟨[1], [], [], rfl, by decide, rfl, rfl⟩,
               ⟨[0], [], [], rfl, by decide, rfl, rfl⟩⟩
      · rcases h2 with h2 | h2
        · subst h2
          exact ⟨⟨[1], [], [], rfl, by decide, rfl, rfl⟩,
                 ⟨[1, 1], [], [], rfl, by decide, rfl, rfl⟩⟩
        · cases h2)
  exact h.trans rfl

/-- C9 witness: the fallback error at concrete codecs, with a hook that
stores nothing. -/
theorem panic_info_not_found_witness :
    callRound pairCodec boolCodec wresCodecB (fun _ => none)
        (fun (_ : Bool) => TaskOut.panics "oops") true 5 7 [] ⟨none, []⟩
      = (.err (.wire (WireError.fromStr "panic information not found")) [], ⟨none, []⟩) ∧
    (WireError.fromStr "panic information not found").description
      = "panic information not found" :=
  panic_info_not_found Bool Bool pairCodec boolCodec wresCodecB
    (fun _ => TaskOut.panics "oops") true "oops" 5 7 rfl
    ⟨natToLeBytes 8 5 ++ natToLeBytes 8 7, [], [], rfl, by decide, by decide, rfl⟩
    ⟨[1], [], [], rfl, by decide, rfl, rfl⟩
    ⟨[0], [], [], rfl, by decide, rfl, rfl⟩
